import Mathlib

/-!
Verification of the URL replacement engine of `src/url_replacer.py`
(class `URLReplacer`) of the image-tool repository.

Shallow embedding conventions:
* Python strings are `List Char` (`Str` below); `str.count`, `str.replace`
  and the `in` operator are embedded with Python's exact semantics
  (non-overlapping leftmost scan; the empty pattern counts `len + 1`
  occurrences and is interleaved at every gap by `replace`).
* Python `dict` mappings are association lists in insertion order.
* The file system is an association list from paths to file contents;
  writes shadow earlier entries.
* BeautifulSoup's parsed document is modelled as a DOM tree (`HNode`);
  parsing and serialisation of the external library are outside the model,
  the HTML strategy is embedded at the tree level.
-/

namespace UrlReplacer

abbrev Str := List Char

abbrev UrlMapping := List (Str × Str)

/-- Python substring test `pat in s`. -/
def containsSub (s pat : Str) : Bool :=
  match s with
  | [] => pat.isPrefixOf []
  | c :: rest => if pat.isPrefixOf (c :: rest) then true else containsSub rest pat

/-- Interleaves `rep` after every character; used for Python's
`s.replace('', rep)` behaviour. -/
def interleave (rep : Str) : Str → Str
  | [] => []
  | c :: rest => c :: (rep ++ interleave rep rest)

/-- Scanner of Python `str.replace` for a non-empty pattern.  The `Nat`
argument is the number of characters of an already-emitted match that
remain to be consumed. -/
def replGo (pat rep : Str) : Nat → Str → Str
  | _ + 1, [] => []
  | k + 1, _ :: rest => replGo pat rep k rest
  | 0, [] => []
  | 0, c :: rest =>
    if pat.isPrefixOf (c :: rest) then rep ++ replGo pat rep (pat.length - 1) rest
    else c :: replGo pat rep 0 rest

/-- Python `s.replace(pat, rep)`. -/
def pyReplace (s pat rep : Str) : Str :=
  if pat = [] then rep ++ interleave rep s else replGo pat rep 0 s

/-- Scanner of Python `str.count` for a non-empty pattern (non-overlapping
leftmost occurrences). -/
def cntGo (pat : Str) : Nat → Str → Nat
  | _ + 1, [] => 0
  | k + 1, _ :: rest => cntGo pat k rest
  | 0, [] => 0
  | 0, c :: rest =>
    if pat.isPrefixOf (c :: rest) then 1 + cntGo pat (pat.length - 1) rest
    else cntGo pat 0 rest

/-- Python `s.count(pat)`. -/
def pyCount (s pat : Str) : Nat :=
  if pat = [] then s.length + 1 else cntGo pat 0 s

/-- One iteration of the loop of `URLReplacer._replace_urls_in_text`
(src/url_replacer.py lines 123-127): replace all occurrences of the key in
the current content, but count occurrences in the original `orig`. -/
def textStep (orig : Str) (acc : Str × Nat) (p : Str × Str) : Str × Nat :=
  if containsSub acc.1 p.1 then (pyReplace acc.1 p.1 p.2, acc.2 + pyCount orig p.1)
  else acc

/-- The loop of `URLReplacer._replace_urls_in_text` over the mapping
entries in insertion order. -/
def textLoop (orig : Str) : UrlMapping → Str × Nat → Str × Nat
  | [], acc => acc
  | p :: rest, acc => textLoop orig rest (textStep orig acc p)

/-- `URLReplacer._replace_urls_in_text` (src/url_replacer.py lines
110-129): returns the rewritten content and the replacement count. -/
def replace_urls_in_text (content : Str) (url_mapping : UrlMapping) : Str × Nat :=
  textLoop content url_mapping (content, 0)

/-- No occurrence of `k` starts strictly inside the segment `pre` of
`pre ++ k ++ suf`: the exhibited occurrence of `k` is the leftmost one. -/
def NoEarlyOcc (k pre suf : Str) : Prop :=
  ∀ i, i < pre.length → k.isPrefixOf ((pre ++ k ++ suf).drop i) = false

/-- Specification of "every exact occurrence of `k` is replaced by `v`":
`ReplacedAll k v s out n` holds when `out` is obtained from `s` by
replacing the `n` leftmost non-overlapping occurrences of `k` with `v`,
the segments between them containing no further occurrence and no
occurrence remaining in the final segment. -/
inductive ReplacedAll (k v : Str) : Str → Str → Nat → Prop
  | done : ∀ s, containsSub s k = false → ReplacedAll k v s s 0
  | step : ∀ pre suf out n, NoEarlyOcc k pre suf → ReplacedAll k v suf out n →
      ReplacedAll k v (pre ++ k ++ suf) (pre ++ v ++ out) (n + 1)

/-! ### Markdown strategy (`_replace_urls_in_markdown`, lines 131-165)

The two regular expressions of the source are embedded as dedicated
scanners with Python `re` semantics: leftmost non-overlapping matches,
lazy `.*?` (no newline) for the Markdown image pattern, greedy
backtracking and `re.IGNORECASE` for the embedded `<img>` pattern.
`re.findall` followed by `re.sub` over the same content is embedded as a
single scan returning the rewritten content together with the number of
matches. -/

/-- Lazy `.*?` of the pattern `(!\[.*?\]\()old(\))`: consumes alt-text
characters (never a newline) only until the literal `](old)` follows;
returns the alt text and the characters consumed from the alt text on. -/
def mdLazy (old : Str) : Str → Option (Str × Nat)
  | [] => none
  | c :: rest =>
    if (']' :: '(' :: (old ++ [')'])).isPrefixOf (c :: rest) then some ([], old.length + 3)
    else if c = '\n' then none
    else (mdLazy old rest).map fun p => (c :: p.1, p.2 + 1)

/-- Match of the Markdown image pattern at the start of `s`: returns the
alt text (group contents between `![` and `](`) and the number of
characters consumed by the whole match. -/
def matchMdAt (old : Str) (s : Str) : Option (Str × Nat) :=
  if ('!' :: ['[']).isPrefixOf s then
    (mdLazy old (s.drop 2)).map fun p => (p.1, p.2 + 2)
  else none

/-- `re.sub`/`re.findall` scan for the Markdown image pattern, rebuilding
the content with each match replaced by `![alt](new)` and counting the
matches.  The `Nat` argument is the number of characters of an
already-emitted match still to be skipped. -/
def mdGo (old new : Str) : Nat → Str → Str × Nat
  | _ + 1, [] => ([], 0)
  | k + 1, _ :: rest => mdGo old new k rest
  | 0, [] => ([], 0)
  | 0, c :: rest =>
    match matchMdAt old (c :: rest) with
    | some (alt, consumed) =>
      let r := mdGo old new (consumed - 1) rest
      ('!' :: '[' :: (alt ++ (']' :: '(' :: (new ++ (')' :: r.1)))), r.2 + 1)
    | none =>
      let r := mdGo old new 0 rest
      (c :: r.1, r.2)

/-- Markdown-image pass of `_replace_urls_in_markdown` (lines 145-150). -/
def mdImagePass (old new content : Str) : Str × Nat := mdGo old new 0 content

/-- Case-insensitive character comparison (`re.IGNORECASE`). -/
def ciEq (a b : Char) : Bool := a.toLower = b.toLower

/-- Case-insensitive literal match of pattern `p` at the start of `s`. -/
def ciPrefix : Str → Str → Bool
  | [], _ => true
  | _ :: _, [] => false
  | p :: ps, c :: cs => ciEq p c && ciPrefix ps cs

/-- The single-quote character (written by code point to keep the source
free of quote literals). -/
def singleQuote : Char := Char.ofNat 39

def isQuote (c : Char) : Bool := c = '"' || c = singleQuote

/-- Matches the tail `["\']?[^>]*>` of the embedded-img pattern: the text
up to and including the first `>`; fails when no `>` remains. -/
def imgTail (s : Str) : Option (Str × Str) :=
  let run := s.takeWhile (fun c => c ≠ '>')
  match s.drop run.length with
  | [] => none
  | _ :: rest2 => some (run ++ ['>'], rest2)

/-- Matches `src=["\']?` followed by the URL (all case-insensitively, per
`re.IGNORECASE`); returns the original text matched by `src=` plus the
optional opening quote, and the remainder after the URL.  The optional
quote is tried first, as the regex engine does. -/
def matchSrcUrl (old : Str) (t : Str) : Option (Str × Str) :=
  if ciPrefix "src=".data t then
    let s4 := t.take 4
    let u := t.drop 4
    match u with
    | c :: u2 =>
      if isQuote c && ciPrefix old u2 then some (s4 ++ [c], u2.drop old.length)
      else if ciPrefix old u then some (s4, u.drop old.length)
      else none
    | [] => if ciPrefix old [] then some (s4, []) else none
  else none

/-- Backtracking loop for the greedy `[^>]+` part: `aRev` is the reversed
candidate text, `t` the rest of the input; candidates are tried longest
first and shortened from the right, as the regex engine does.  Returns
(rest of group 1 after `<img`, group 2, remainder after the match). -/
def imgALoop (old : Str) : Str → Str → Option (Str × Str × Str)
  | [], _ => none
  | c :: aRev, t =>
    match matchSrcUrl old t with
    | some (g1b, u) =>
      match imgTail u with
      | some (g2, rem) => some (((c :: aRev).reverse ++ g1b, g2, rem))
      | none => imgALoop old aRev (c :: t)
    | none => imgALoop old aRev (c :: t)

/-- Match of the embedded-img pattern
`(<img[^>]+src=["\']?)old(["\']?[^>]*>)` (IGNORECASE) at the start of
`s`: returns group 1, group 2 and the number of characters consumed. -/
def matchImgAt (old : Str) (s : Str) : Option (Str × Str × Nat) :=
  if ciPrefix "<img".data s then
    let m4 := s.take 4
    let rest := s.drop 4
    let run := rest.takeWhile (fun c => c ≠ '>')
    match imgALoop old run.reverse (rest.drop run.length) with
    | some (g1a, g2, rem) => some (m4 ++ g1a, g2, s.length - rem.length)
    | none => none
  else none

/-- `re.sub` scan for the embedded-img pattern: each match is replaced by
group 1 ++ new ++ group 2. -/
def imgGo (old new : Str) : Nat → Str → Str × Nat
  | _ + 1, [] => ([], 0)
  | k + 1, _ :: rest => imgGo old new k rest
  | 0, [] => ([], 0)
  | 0, c :: rest =>
    match matchImgAt old (c :: rest) with
    | some (g1, g2, consumed) =>
      let r := imgGo old new (consumed - 1) rest
      (g1 ++ new ++ g2 ++ r.1, r.2 + 1)
    | none =>
      let r := imgGo old new 0 rest
      (c :: r.1, r.2)

/-- Embedded `<img>` pass of `_replace_urls_in_markdown` (lines 152-157). -/
def imgTagPass (old new content : Str) : Str × Nat := imgGo old new 0 content

/-- Plain-substring pass of `_replace_urls_in_markdown` (lines 159-163).
Unlike the text strategy, the count here is taken on the current content. -/
def mdPlainPass (old new content : Str) : Str × Nat :=
  if containsSub content old then (pyReplace content old new, pyCount content old)
  else (content, 0)

/-- One mapping entry of `_replace_urls_in_markdown`: Markdown-image
pass, embedded `<img>` pass, then plain substring pass, counts
accumulated. -/
def mdStep (acc : Str × Nat) (p : Str × Str) : Str × Nat :=
  let r1 := mdImagePass p.1 p.2 acc.1
  let r2 := imgTagPass p.1 p.2 r1.1
  let r3 := mdPlainPass p.1 p.2 r2.1
  (r3.1, acc.2 + r1.2 + r2.2 + r3.2)

/-- `URLReplacer._replace_urls_in_markdown` (src/url_replacer.py lines
131-165). -/
def replace_urls_in_markdown (content : Str) (url_mapping : UrlMapping) : Str × Nat :=
  url_mapping.foldl mdStep (content, 0)

/-! ### HTML strategy (`_replace_urls_in_html`, lines 167-226)

The BeautifulSoup document is modelled as a DOM tree; parsing and
serialisation belong to the external library and are outside the model.
The three `find_all` passes of the source (img attributes, style
elements, inline style attributes) are embedded as tree traversals; since
each pass only rewrites its own attribute/text positions, the in-place
mutation of the source is captured by the returned tree. -/

mutual
/-- A node of the parsed document: an element with name, attributes (in
document order, unique keys after parsing) and children, or a text node. -/
inductive HNode where
  | elem (name : Str) (attrs : List (Str × Str)) (children : HForest)
  | text (s : Str)
deriving DecidableEq
/-- Children of an element, in document order. -/
inductive HForest where
  | nil
  | cons (h : HNode) (t : HForest)
deriving DecidableEq
end

def imgName : Str := "img".data

def srcKey : Str := "src".data

def dataSrcKey : Str := "data-src".data

def styleStr : Str := "style".data

/-- Python dict membership/lookup `url_mapping[k]`. -/
def lookupM (M : UrlMapping) (k : Str) : Option Str :=
  match M with
  | [] => none
  | p :: rest => if p.1 = k then some p.2 else lookupM rest k

/-- bs4 `tag.get(k)`: first attribute with the given name. -/
def getAttr : List (Str × Str) → Str → Option Str
  | [], _ => none
  | p :: rest, k => if p.1 = k then some p.2 else getAttr rest k

/-- bs4 `tag[k] = v`: update the attribute in place, or append it. -/
def setAttr : List (Str × Str) → Str → Str → List (Str × Str)
  | [], k, v => [(k, v)]
  | p :: rest, k, v => if p.1 = k then (k, v) :: rest else p :: setAttr rest k v

/-- Lines 185-194: update `src` then `data-src` of one `img` tag.  An
attribute is replaced only when present, non-empty (Python truthiness of
`src and ...`) and exactly equal to a mapping key; each replaced
attribute counts 1. -/
def imgUpdate (M : UrlMapping) (attrs : List (Str × Str)) : List (Str × Str) × Nat :=
  let step1 :=
    match getAttr attrs srcKey with
    | some src =>
      if src ≠ [] then
        match lookupM M src with
        | some newUrl => (setAttr attrs srcKey newUrl, 1)
        | none => (attrs, 0)
      else (attrs, 0)
    | none => (attrs, 0)
  let step2 :=
    match getAttr step1.1 dataSrcKey with
    | some dsrc =>
      if dsrc ≠ [] then
        match lookupM M dsrc with
        | some newUrl => (setAttr step1.1 dataSrcKey newUrl, 1)
        | none => (step1.1, 0)
      else (step1.1, 0)
    | none => (step1.1, 0)
  (step2.1, step1.2 + step2.2)

/-- Lines 201-204 and 212-215: per-pair substring substitution in CSS
text, counting 1 per pair whose key occurs (not per occurrence). -/
def cssReplace (M : UrlMapping) (s : Str) : Str × Nat :=
  M.foldl (fun acc p =>
    if containsSub acc.1 p.1 then (pyReplace acc.1 p.1 p.2, acc.2 + 1) else acc) (s, 0)

/-- bs4 `tag.string`: the unique child when it is a text node. -/
def tagString : HForest → Option Str
  | .cons (.text s) .nil => some s
  | _ => none

/-- Lines 210-217: substitution inside one inline `style` attribute; the
attribute is written back only when it changed. -/
def styleAttrUpdate (M : UrlMapping) (attrs : List (Str × Str)) : List (Str × Str) × Nat :=
  match getAttr attrs styleStr with
  | some st =>
    let pr := cssReplace M st
    ((if pr.1 ≠ st then setAttr attrs styleStr pr.1 else attrs), pr.2)
  | none => (attrs, 0)

mutual
/-- First pass (lines 183-194): `soup.find_all('img')` and the
`src`/`data-src` updates. -/
def pass1 (M : UrlMapping) : HNode → HNode × Nat
  | .text s => (.text s, 0)
  | .elem nm attrs cs =>
    let pa := if nm = imgName then imgUpdate M attrs else (attrs, 0)
    let pc := pass1F M cs
    (.elem nm pa.1 pc.1, pa.2 + pc.2)
def pass1F (M : UrlMapping) : HForest → HForest × Nat
  | .nil => (.nil, 0)
  | .cons h t =>
    let ph := pass1 M h
    let pt := pass1F M t
    (.cons ph.1 pt.1, ph.2 + pt.2)
end

mutual
/-- Second pass (lines 197-205): `find_all(['style', 'link'])`; only
`style` tags with a truthy `tag.string` are rewritten (`link` tags are
enumerated but skipped by the `tag.name == 'style'` guard). -/
def pass2 (M : UrlMapping) : HNode → HNode × Nat
  | .text s => (.text s, 0)
  | .elem nm attrs cs =>
    if nm = styleStr then
      match tagString cs with
      | some s =>
        if s ≠ [] then
          let pr := cssReplace M s
          (.elem nm attrs (.cons (.text pr.1) .nil), pr.2)
        else
          let pc := pass2F M cs
          (.elem nm attrs pc.1, pc.2)
      | none =>
        let pc := pass2F M cs
        (.elem nm attrs pc.1, pc.2)
    else
      let pc := pass2F M cs
      (.elem nm attrs pc.1, pc.2)
def pass2F (M : UrlMapping) : HForest → HForest × Nat
  | .nil => (.nil, 0)
  | .cons h t =>
    let ph := pass2 M h
    let pt := pass2F M t
    (.cons ph.1 pt.1, ph.2 + pt.2)
end

mutual
/-- Third pass (lines 208-217): `find_all(attrs={'style': True})` and the
inline style substitutions. -/
def pass3 (M : UrlMapping) : HNode → HNode × Nat
  | .text s => (.text s, 0)
  | .elem nm attrs cs =>
    let pa := styleAttrUpdate M attrs
    let pc := pass3F M cs
    (.elem nm pa.1 pc.1, pa.2 + pc.2)
def pass3F (M : UrlMapping) : HForest → HForest × Nat
  | .nil => (.nil, 0)
  | .cons h t =>
    let ph := pass3 M h
    let pt := pass3F M t
    (.cons ph.1 pt.1, ph.2 + pt.2)
end

/-- `URLReplacer._replace_urls_in_html` (lines 167-226) on the parsed
document tree: the three passes in sequence, counts summed.  (The
parse-failure fallback of lines 221-224 is not reachable on an already
parsed tree.) -/
def replace_urls_in_html (t : HNode) (M : UrlMapping) : HNode × Nat :=
  let r1 := pass1 M t
  let r2 := pass2 M r1.1
  let r3 := pass3 M r2.1
  (r3.1, r1.2 + r2.2 + r3.2)

/-- The three passes on a forest (helper for the induction). -/
def htmlPassesF (f : HForest) (M : UrlMapping) : HForest × Nat :=
  let r1 := pass1F M f
  let r2 := pass2F M r1.1
  let r3 := pass3F M r2.1
  (r3.1, r1.2 + r2.2 + r3.2)

mutual
/-- Specification transform, from the spec's words: in one traversal,
replace `src`/`data-src` of every image element exactly when they equal a
mapping key; substitute URLs in every style element's CSS text and in
every inline `style` attribute. -/
def specNode (M : UrlMapping) : HNode → HNode
  | .text s => .text s
  | .elem nm attrs cs =>
    let a1 := if nm = imgName then (imgUpdate M attrs).1 else attrs
    let cs2 :=
      if nm = styleStr then
        match tagString cs with
        | some s =>
          if s ≠ [] then HForest.cons (.text (cssReplace M s).1) .nil
          else specForest M cs
        | none => specForest M cs
      else specForest M cs
    .elem nm (styleAttrUpdate M a1).1 cs2
def specForest (M : UrlMapping) : HForest → HForest
  | .nil => .nil
  | .cons h t => .cons (specNode M h) (specForest M t)
end

mutual
/-- Specification count: 1 per replaced `img` attribute, 1 per mapping
pair found in a style element's CSS text or in an inline style attribute. -/
def specCnt (M : UrlMapping) : HNode → Nat
  | .text _ => 0
  | .elem nm attrs cs =>
    (if nm = imgName then (imgUpdate M attrs).2 else 0)
    + (styleAttrUpdate M (if nm = imgName then (imgUpdate M attrs).1 else attrs)).2
    + (if nm = styleStr then
        match tagString cs with
        | some s => if s ≠ [] then (cssReplace M s).2 else specCntF M cs
        | none => specCntF M cs
      else specCntF M cs)
def specCntF (M : UrlMapping) : HForest → Nat
  | .nil => 0
  | .cons h t => specCnt M h + specCntF M t
end

/-! ### File orchestrator (`replace_urls_in_file`, lines 22-108)

The file system is modelled as an association list from paths to string
contents; a write shadows earlier entries.  Reading never fails to decode
(the encoding fallback ends with latin1, see `readContent` below) and
directory creation (line 92) cannot fail in the model, so the reachable
failure paths are the two validation errors of lines 45-49. -/

abbrev FS := List (Str × Str)

def lookupFS : FS → Str → Option Str
  | [], _ => none
  | p :: rest, k => if p.1 = k then some p.2 else lookupFS rest k

def writeFS (fs : FS) (p c : Str) : FS := (p, c) :: fs

/-- Python `output_path or file_path`: `None` and the empty string are
falsy. -/
def pyOr (o : Option Str) (d : Str) : Str :=
  match o with
  | none => d
  | some s => if s = [] then d else s

/-- The final component of a path. -/
def pathName (p : Str) : Str := (p.reverse.takeWhile (fun c => c ≠ '/')).reverse

/-- `pathlib.Path(p).suffix`: the last dot-suffix of the final component;
empty when there is no dot or the dot is leading or trailing. -/
def pathSuffix (p : Str) : Str :=
  let nm := pathName p
  let tail := nm.reverse.takeWhile (fun c => c ≠ '.')
  if tail.length = nm.length then []
  else if tail.length = 0 then []
  else if tail.length + 1 = nm.length then []
  else '.' :: tail.reverse

def toLowerStr (s : Str) : Str := s.map Char.toLower

/-- The result dict created at lines 35-42: it has exactly these six
fields, which later code only updates and never extends. -/
structure RResult where
  file_path : Str
  output_path : Str
  success : Bool
  replacements : Nat
  backup_path : Option Str
  error : Option Str
deriving DecidableEq

def backupSuffix : Str := ".backup".data

/-- `URLReplacer.replace_urls_in_file` (lines 22-108) over the modelled
file system, returning the updated file system and the result dict.  The
HTML branch parses the content with BeautifulSoup; this external step is
abstracted as the parameter `htmlT`.  The `os.path.exists` check (line
45) and the read (lines 59-75) are combined into the single `lookupFS`:
reading is pure, always succeeds on an existing file (see `readContent`),
and the observable write order — backup first, output second — is
preserved, as is the mapping check before the backup. -/
def replace_urls_in_file (htmlT : Str → UrlMapping → Str × Nat) (fs : FS) (file_path : Str)
    (url_mapping : UrlMapping) (output_path : Option Str) (backup : Bool) : FS × RResult :=
  let base : RResult :=
    { file_path := file_path, output_path := pyOr output_path file_path,
      success := false, replacements := 0, backup_path := none, error := none }
  match lookupFS fs file_path with
  | none => (fs, { base with error := some ("文件不存在: ".data ++ file_path) })
  | some content =>
    if url_mapping = [] then (fs, { base with error := some "URL映射不能为空".data })
    else
      let doBackup := backup = true ∧ (output_path = none ∨ output_path = some file_path)
      let bpath := file_path ++ backupSuffix
      let fs1 := if doBackup then writeFS fs bpath content else fs
      let res1 := { base with backup_path := if doBackup then some bpath else none }
      let ext := toLowerStr (pathSuffix file_path)
      let tr :=
        if ext = ".html".data ∨ ext = ".htm".data then htmlT content url_mapping
        else if ext = ".md".data then replace_urls_in_markdown content url_mapping
        else replace_urls_in_text content url_mapping
      let fs2 := writeFS fs1 (pyOr output_path file_path) tr.1
      (fs2, { res1 with success := true, replacements := tr.2 })

/-- Fallible-write variant of `replace_urls_in_file`, identical except
that the write step of lines 92-95 may fail: `open(output_file, 'w')`
truncates the output file before anything is written, and `f.write` or
the implicit flush/close may then raise (for example ENOSPC), so with
`failAfter = some k` exactly `k` characters of the new content reach the
file before the exception, which the `except` of line 104 catches,
recording only the error; `failAfter = none` is the successful write and
agrees with `replace_urls_in_file` (theorem
`replace_urls_in_file_w_none`). -/
def replace_urls_in_file_w (failAfter : Option Nat) (htmlT : Str → UrlMapping → Str × Nat)
    (fs : FS) (file_path : Str) (url_mapping : UrlMapping) (output_path : Option Str)
    (backup : Bool) : FS × RResult :=
  let base : RResult :=
    { file_path := file_path, output_path := pyOr output_path file_path,
      success := false, replacements := 0, backup_path := none, error := none }
  match lookupFS fs file_path with
  | none => (fs, { base with error := some ("文件不存在: ".data ++ file_path) })
  | some content =>
    if url_mapping = [] then (fs, { base with error := some "URL映射不能为空".data })
    else
      let doBackup := backup = true ∧ (output_path = none ∨ output_path = some file_path)
      let bpath := file_path ++ backupSuffix
      let fs1 := if doBackup then writeFS fs bpath content else fs
      let res1 := { base with backup_path := if doBackup then some bpath else none }
      let ext := toLowerStr (pathSuffix file_path)
      let tr :=
        if ext = ".html".data ∨ ext = ".htm".data then htmlT content url_mapping
        else if ext = ".md".data then replace_urls_in_markdown content url_mapping
        else replace_urls_in_text content url_mapping
      match failAfter with
      | none =>
        let fs2 := writeFS fs1 (pyOr output_path file_path) tr.1
        (fs2, { res1 with success := true, replacements := tr.2 })
      | some k =>
        let fs2 := writeFS fs1 (pyOr output_path file_path) (tr.1.take k)
        (fs2, { res1 with error := some "[Errno 28] No space left on device".data })

/-- `URLReplacer.restore_from_backup` (lines 375-397): copy
`<path>.backup` over `path`; false when no backup exists. -/
def restore_from_backup (fs : FS) (file_path : Str) : FS × Bool :=
  match lookupFS fs (file_path ++ backupSuffix) with
  | none => (fs, false)
  | some c => (writeFS fs file_path c, true)

/-! ### Directory walker (`replace_urls_in_directory`, lines 228-288) -/

mutual
/-- An entry of the on-disk tree: a file name, or a subdirectory with its
entries in enumeration order. -/
inductive FTree where
  | file (name : Str)
  | dir (name : Str) (entries : FEntries)
/-- The entries of a directory, in enumeration order. -/
inductive FEntries where
  | nil
  | cons (e : FTree) (t : FEntries)
end

/-- The file paths of one directory level, in enumeration order
(`os.listdir` restricted by `os.path.isfile`). -/
def topFiles (base : Str) : FEntries → List Str
  | .nil => []
  | .cons (.file n) es => (base ++ '/' :: n) :: topFiles base es
  | .cons (.dir _ _) es => topFiles base es

mutual
/-- The files of the subdirectories of one level, in `os.walk` top-down
depth-first order. -/
def subWalk (base : Str) : FEntries → List Str
  | .nil => []
  | .cons e es => walkDir base e ++ subWalk base es
/-- The files below one entry (none when the entry is a file: its own
path is produced by `topFiles` at its level). -/
def walkDir (base : Str) : FTree → List Str
  | .file _ => []
  | .dir n es => topFiles (base ++ '/' :: n) es ++ subWalk (base ++ '/' :: n) es
end

/-- All file paths under `base` in `os.walk` top-down order: the files of
each directory before its subdirectories, depth-first. -/
def walkPaths (base : Str) (es : FEntries) : List Str :=
  topFiles base es ++ subWalk base es

def supportedFormats : List Str := [".txt".data, ".md".data, ".html".data, ".htm".data]

/-- The extension filter of lines 259 and 272. -/
def isSupported (p : Str) : Bool := supportedFormats.contains (toLowerStr (pathSuffix p))

/-- Output path under an output directory (lines 261-263 and 274-275):
the walk produces paths of the form `dirPath/rel`, whose relative part is
the path minus the directory prefix and separator. -/
def relOut (outDir : Str) (dirPath : Str) (p : Str) : Str :=
  outDir ++ '/' :: p.drop (dirPath.length + 1)

/-- The per-file loop shared by both branches (lines 267-268 and
279-280): delegate to `replace_urls_in_file`, thread the file system,
collect every result and never stop on a failed file. -/
def runFiles (htmlT : Str → UrlMapping → Str × Nat) (M : UrlMapping)
    (outDir : Option Str) (dirPath : Str) (backup : Bool) :
    List Str → FS → List RResult × FS
  | [], fs => ([], fs)
  | p :: ps, fs =>
    let op :=
      match outDir with
      | some od => some (relOut od dirPath p)
      | none => none
    let pr := replace_urls_in_file htmlT fs p M op backup
    let rest := runFiles htmlT M outDir dirPath backup ps pr.1
    (pr.2 :: rest.1, rest.2)

/-- `URLReplacer.replace_urls_in_directory` (lines 228-288): enumerate
the tree (recursively via `os.walk`, or one level via `os.listdir` with
the `isfile` check), keep the supported extensions, and run the per-file
loop in enumeration order.  The precondition checks of lines 243-247
(missing path, not a directory) raise to the caller and are outside the
per-file model. -/
def replace_urls_in_directory (htmlT : Str → UrlMapping → Str × Nat) (fs : FS)
    (dirPath : Str) (entries : FEntries) (M : UrlMapping) (outDir : Option Str)
    (recursive : Bool) (backup : Bool) : List RResult × FS :=
  let paths := if recursive then walkPaths dirPath entries else topFiles dirPath entries
  runFiles htmlT M outDir dirPath backup (paths.filter isSupported) fs

/-! ### Encoding fallback (lines 59-75) -/

/-- Latin-1 decoding: every byte maps to the character of its value, so
decoding is total on byte sequences. -/
def decodeLatin1 (bs : List Nat) : Str := bs.map (fun b => Char.ofNat (b % 256))

/-- The `for encoding in encodings` loop of lines 64-72: the first
decoder to succeed wins. -/
def firstSome : List (List Nat → Option Str) → List Nat → Option Str
  | [], _ => none
  | d :: ds, bs =>
    match d bs with
    | some c => some c
    | none => firstSome ds bs

/-- The read step of lines 59-75: UTF-8 first, then the fallback list
`['gbk', 'gb2312', 'latin1']`.  The external codecs are parameters; the
latin1 codec decodes every byte sequence and is modelled as total. -/
def readContent (dutf8 dgbk dgb2312 : List Nat → Option Str) (bs : List Nat) : Option Str :=
  match dutf8 bs with
  | some c => some c
  | none => firstSome [dgbk, dgb2312, fun b => some (decodeLatin1 b)] bs

/-- Trivial HTML-strategy stub used to instantiate the orchestrator
theorems at concrete inputs. -/
def htmlTId : Str → UrlMapping → Str × Nat := fun c _ => (c, 0)

/-- Concrete directory `{a.txt, b.md, sub/c.html}` for the C7 instances. -/
def exEntries : FEntries :=
  .cons (.file "a.txt".data) (.cons (.file "b.md".data)
    (.cons (.dir "sub".data (.cons (.file "c.html".data) .nil)) .nil))

/-- The matching file system for `exEntries` under directory `d`. -/
def exDirFS : FS :=
  [("d/a.txt".data, "see http://a/1.jpg".data),
   ("d/b.md".data, "![x](http://a/1.jpg)".data),
   ("d/sub/c.html".data, "<img src=x>".data)]

def exM : UrlMapping := [("http://a/1.jpg".data, "http://b/1.jpg".data)]

/-! ### Theorems -/

theorem replGo_skip (pat rep : Str) (m : Nat) (s : Str) :
    replGo pat rep m s = replGo pat rep 0 (s.drop m) := by
  induction s generalizing m with
  | nil => cases m <;> simp [replGo]
  | cons c rest ih =>
    cases m with
    | zero => simp
    | succ m => simpa [replGo] using ih m

theorem cntGo_skip (pat : Str) (m : Nat) (s : Str) :
    cntGo pat m s = cntGo pat 0 (s.drop m) := by
  induction s generalizing m with
  | nil => cases m <;> simp [cntGo]
  | cons c rest ih =>
    cases m with
    | zero => simp
    | succ m => simpa [cntGo] using ih m

theorem containsSub_nil_pat (s : Str) : containsSub s [] = true := by
  cases s with
  | nil => rfl
  | cons c rest => rw [containsSub]; simp

theorem containsSub_cons_false {s : Str} {k : Str} {c : Char}
    (h : containsSub (c :: s) k = false) :
    k.isPrefixOf (c :: s) = false ∧ containsSub s k = false := by
  rw [containsSub] at h
  by_cases hp : k.isPrefixOf (c :: s) = true
  · rw [if_pos hp] at h
    exact absurd h (by simp)
  · simp only [Bool.not_eq_true] at hp
    rw [if_neg (by simp [hp])] at h
    exact ⟨hp, h⟩

theorem cntGo_eq_zero {k : Str} {s : Str} (h : containsSub s k = false) :
    cntGo k 0 s = 0 := by
  induction s with
  | nil => rfl
  | cons c rest ih =>
    obtain ⟨hp, hr⟩ := containsSub_cons_false h
    rw [cntGo, if_neg (by simp [hp])]
    exact ih hr

theorem ReplacedAll.cons {k v : Str} {c : Char} {s out : Str} {n : Nat}
    (hp : k.isPrefixOf (c :: s) = false) (h : ReplacedAll k v s out n) :
    ReplacedAll k v (c :: s) (c :: out) n := by
  cases h with
  | done _ hc =>
    apply ReplacedAll.done
    rw [containsSub, if_neg (by simp [hp])]
    exact hc
  | step pre suf out' m hNE hrec =>
    have h1 : (c :: pre) ++ k ++ suf = c :: (pre ++ k ++ suf) := by simp
    have h2 : (c :: pre) ++ v ++ out' = c :: (pre ++ v ++ out') := by simp
    have := ReplacedAll.step (c :: pre) suf out' m ?_ hrec
    · rw [h1, h2] at this
      exact this
    · intro i hi
      cases i with
      | zero => simpa [h1] using hp
      | succ j =>
        have := hNE j (by simpa using hi)
        simpa [h1] using this

theorem replGo_replacedAll (k v : Str) (hk : k ≠ []) :
    ∀ (n : Nat) (s : Str), s.length ≤ n →
      ReplacedAll k v s (replGo k v 0 s) (cntGo k 0 s) := by
  intro n
  induction n with
  | zero =>
    intro s hs
    have hnil : s = [] := List.length_eq_zero.mp (Nat.le_zero.mp hs)
    subst hnil
    obtain ⟨a, as, rfl⟩ := List.exists_cons_of_ne_nil hk
    exact ReplacedAll.done [] (by rw [containsSub]; simp)
  | succ n ih =>
    intro s hs
    match s with
    | [] =>
      obtain ⟨a, as, rfl⟩ := List.exists_cons_of_ne_nil hk
      exact ReplacedAll.done [] (by rw [containsSub]; simp)
    | c :: rest =>
      by_cases hp : k.isPrefixOf (c :: rest) = true
      · have hpre : k <+: c :: rest := List.isPrefixOf_iff_prefix.mp hp
        obtain ⟨t, ht⟩ := hpre
        have hklen : 1 ≤ k.length := by
          cases k with
          | nil => exact absurd rfl hk
          | cons _ _ => simp
        have hdrop : rest.drop (k.length - 1) = t := by
          have hd : (c :: rest).drop k.length = t := by
            rw [← ht, List.drop_left]
          rw [← hd]
          cases hk2 : k with
          | nil => exact absurd hk2 hk
          | cons a as => simp
        have hlen : k.length + t.length = rest.length + 1 := by
          have h3 := congrArg List.length ht
          simp [List.length_append] at h3
          omega
        have htlen : t.length ≤ n := by
          have hs2 : rest.length + 1 ≤ n + 1 := by simpa using hs
          omega
        have hrec := ih t htlen
        have hstep := ReplacedAll.step (k := k) (v := v) [] t _ _ (by intro i hi; simp at hi) hrec
        rw [replGo, if_pos hp, replGo_skip, hdrop, cntGo, if_pos hp, cntGo_skip, hdrop]
        simpa [ht, Nat.add_comm] using hstep
      · simp only [Bool.not_eq_true] at hp
        rw [replGo, if_neg (by simp [hp]), cntGo, if_neg (by simp [hp])]
        exact ReplacedAll.cons hp (ih rest (by simpa using hs))

/-- C1 (amended): for a single-entry mapping whose key is not a substring
of its value, `_replace_urls_in_text` replaces every leftmost
non-overlapping occurrence of the key by its value, and the reported count
equals the number of occurrences of the key in the original content
(Python `str.count` semantics). -/
theorem c1_text_strategy_correct (C k v : Str) (hno : containsSub v k = false) :
    ReplacedAll k v C (replace_urls_in_text C [(k, v)]).1
      (replace_urls_in_text C [(k, v)]).2 ∧
    (replace_urls_in_text C [(k, v)]).2 = pyCount C k := by
  have hk : k ≠ [] := by
    intro h
    subst h
    simp [containsSub_nil_pat] at hno
  have hpy : pyCount C k = cntGo k 0 C := by rw [pyCount, if_neg hk]
  have hrw : replace_urls_in_text C [(k, v)]
      = if containsSub C k = true then (pyReplace C k v, 0 + pyCount C k) else (C, 0) := rfl
  by_cases hc : containsSub C k = true
  · rw [hrw, if_pos hc]
    have hmain := replGo_replacedAll k v hk C.length C (Nat.le_refl _)
    refine ⟨?_, by simp⟩
    simpa [pyReplace, if_neg hk, hpy] using hmain
  · rw [hrw, if_neg hc]
    simp only [Bool.not_eq_true] at hc
    exact ⟨ReplacedAll.done C hc, by simp [hpy, cntGo_eq_zero hc]⟩

/-- Witness for `c1_text_strategy_correct` at content `"aba"`, mapping
`{"a" -> "zz"}`. -/
theorem c1_text_strategy_correct_witness :
    containsSub "zz".data "a".data = false ∧
    (ReplacedAll "a".data "zz".data "aba".data
        (replace_urls_in_text "aba".data [("a".data, "zz".data)]).1
        (replace_urls_in_text "aba".data [("a".data, "zz".data)]).2 ∧
      (replace_urls_in_text "aba".data [("a".data, "zz".data)]).2
        = pyCount "aba".data "a".data) :=
  ⟨by decide, c1_text_strategy_correct "aba".data "a".data "zz".data (by decide)⟩

/-- C1 counterexample: for content `"ab"` and mapping
`{"ab" -> "x", "a" -> "y"}` no key is a substring of any value, yet the
reported count (1) differs from the total number of occurrences of the
keys in the original content (1 + 1 = 2): the occurrence of `"a"` was
consumed by the earlier replacement of `"ab"`. -/
theorem c1_counterexample :
    (∀ p ∈ [("ab".data, "x".data), ("a".data, "y".data)],
      ∀ q ∈ [("ab".data, "x".data), ("a".data, "y".data)],
        containsSub q.2 p.1 = false) ∧
    (replace_urls_in_text "ab".data [("ab".data, "x".data), ("a".data, "y".data)]).2
      ≠ pyCount "ab".data "ab".data + pyCount "ab".data "a".data := by decide

theorem textLoop_id (orig : Str) (M : UrlMapping) (cur : Str) (n : Nat)
    (h : ∀ p ∈ M, containsSub cur p.1 = false) : textLoop orig M (cur, n) = (cur, n) := by
  induction M with
  | nil => rfl
  | cons p rest ih =>
    rw [textLoop, textStep, if_neg (by simp [h p (by simp)])]
    exact ih fun q hq => h q (by simp [hq])

/-- C5 (amended): if after one application of the text strategy no key of
`M` occurs in the resulting content (in particular no value of `M` equals
a key, no value contains a key, and no replacement recreates a key at a
segment boundary), then a second application returns the same content and
count 0. -/
theorem c5_text_strategy_idempotent (C : Str) (M : UrlMapping)
    (h : ∀ p ∈ M, containsSub (replace_urls_in_text C M).1 p.1 = false) :
    replace_urls_in_text (replace_urls_in_text C M).1 M
      = ((replace_urls_in_text C M).1, 0) :=
  textLoop_id _ M _ 0 h

/-- Witness for `c5_text_strategy_idempotent` at content `"a"`, mapping
`{"a" -> "b"}`. -/
theorem c5_text_strategy_idempotent_witness :
    (∀ p ∈ [("a".data, "b".data)],
      containsSub (replace_urls_in_text "a".data [("a".data, "b".data)]).1 p.1 = false) ∧
    replace_urls_in_text (replace_urls_in_text "a".data [("a".data, "b".data)]).1
        [("a".data, "b".data)]
      = ((replace_urls_in_text "a".data [("a".data, "b".data)]).1, 0) :=
  ⟨by decide, c5_text_strategy_idempotent "a".data [("a".data, "b".data)] (by decide)⟩

/-- C5 counterexample: for content `"a"` and mapping `{"a" -> "xa"}` no
value equals any key, yet the second pass rewrites the content again
(`"xa"` becomes `"xxa"`) and reports count 1, not 0. -/
theorem c5_counterexample :
    (∀ p ∈ [("a".data, "xa".data)], ∀ q ∈ [("a".data, "xa".data)], p.2 ≠ q.1) ∧
    ((replace_urls_in_text (replace_urls_in_text "a".data [("a".data, "xa".data)]).1
        [("a".data, "xa".data)]).1
        ≠ (replace_urls_in_text "a".data [("a".data, "xa".data)]).1 ∧
      (replace_urls_in_text (replace_urls_in_text "a".data [("a".data, "xa".data)]).1
        [("a".data, "xa".data)]).2 ≠ 0) := by decide

theorem mdStep_off (c : Str) (n : Nat) (p : Str × Str) :
    mdStep (c, n) p = ((mdStep (c, 0) p).1, n + (mdStep (c, 0) p).2) := by
  simp only [mdStep]
  refine Prod.ext rfl ?_
  simp
  omega

theorem mdFoldl_count (M : UrlMapping) (c : Str) (n : Nat) :
    M.foldl mdStep (c, n) = ((M.foldl mdStep (c, 0)).1, n + (M.foldl mdStep (c, 0)).2) := by
  induction M generalizing c n with
  | nil => simp
  | cons p rest ih =>
    simp only [List.foldl_cons]
    rcases hm : mdStep (c, 0) p with ⟨x, s⟩
    rw [mdStep_off c n p, hm]
    show List.foldl mdStep (x, n + s) rest
      = ((List.foldl mdStep (x, s) rest).1, n + (List.foldl mdStep (x, s) rest).2)
    rw [ih x (n + s), ih x s]
    refine Prod.ext rfl ?_
    show (n + s) + (List.foldl mdStep (x, 0) rest).2
      = n + (s + (List.foldl mdStep (x, 0) rest).2)
    omega

/-- C6: the Markdown strategy applies, per mapping entry, three passes in
order — Markdown image syntax, embedded `<img src>` tags, plain substring
substitution — accumulating the count across all passes; and on
`![x](http://a/1.jpg)` with mapping `{http://a/1.jpg -> http://b/1.jpg}`
the result contains `![x](http://b/1.jpg)` and the count is ≥ 1. -/
theorem c6_markdown_strategy :
    (∀ (C old new : Str) (M : UrlMapping),
      replace_urls_in_markdown C ((old, new) :: M)
        = (let r1 := mdImagePass old new C
           let r2 := imgTagPass old new r1.1
           let r3 := mdPlainPass old new r2.1
           let rr := replace_urls_in_markdown r3.1 M
           (rr.1, r1.2 + r2.2 + r3.2 + rr.2))) ∧
    replace_urls_in_markdown "![x](http://a/1.jpg)".data
        [("http://a/1.jpg".data, "http://b/1.jpg".data)]
      = ("![x](http://b/1.jpg)".data, 1) ∧
    containsSub (replace_urls_in_markdown "![x](http://a/1.jpg)".data
        [("http://a/1.jpg".data, "http://b/1.jpg".data)]).1
        "![x](http://b/1.jpg)".data = true ∧
    1 ≤ (replace_urls_in_markdown "![x](http://a/1.jpg)".data
        [("http://a/1.jpg".data, "http://b/1.jpg".data)]).2 := by
  refine ⟨?_, by decide, by decide, by decide⟩
  intro C old new M
  show ((old, new) :: M).foldl mdStep (C, 0) = _
  rw [List.foldl_cons, mdStep_off C 0 (old, new), mdFoldl_count]
  simp only [mdStep]
  refine Prod.ext ?_ ?_ <;> simp [replace_urls_in_markdown]

theorem tagString_eq_some {f : HForest} {s : Str} (h : tagString f = some s) :
    f = .cons (.text s) .nil := by
  cases f with
  | nil => simp [tagString] at h
  | cons h1 t1 =>
    cases h1 with
    | elem n a c => simp [tagString] at h
    | text u =>
      cases t1 with
      | nil =>
        simp [tagString] at h
        rw [h]
      | cons h2 t2 => simp [tagString] at h

theorem tagString_pass1F_none (M : UrlMapping) (f : HForest) (h : tagString f = none) :
    tagString (pass1F M f).1 = none := by
  cases f with
  | nil => rfl
  | cons h1 t1 =>
    cases h1 with
    | elem n a c => simp [pass1, pass1F, tagString]
    | text s =>
      cases t1 with
      | nil => simp [tagString] at h
      | cons h2 t2 => simp [pass1, pass1F, tagString]

theorem htmlF_spec_cons (M : UrlMapping) (h : HNode) (t : HForest)
    (ih1 : replace_urls_in_html h M = (specNode M h, specCnt M h))
    (ih2 : htmlPassesF t M = (specForest M t, specCntF M t)) :
    htmlPassesF (.cons h t) M = (specForest M (.cons h t), specCntF M (.cons h t)) := by
  have ha := congrArg Prod.fst ih1
  have hn := congrArg Prod.snd ih1
  have hb := congrArg Prod.fst ih2
  have hm := congrArg Prod.snd ih2
  simp only [replace_urls_in_html] at ha hn
  simp only [htmlPassesF] at hb hm
  simp only [htmlPassesF, pass1F, pass2F, pass3F, specForest, specCntF]
  refine Prod.ext ?_ ?_
  · simp only []
    rw [← ha, ← hb]
  · simp only []
    rw [← hn, ← hm]
    omega

theorem html_spec_elem (M : UrlMapping) (nm : Str) (attrs : List (Str × Str)) (cs : HForest)
    (ih : htmlPassesF cs M = (specForest M cs, specCntF M cs)) :
    replace_urls_in_html (.elem nm attrs cs) M
      = (specNode M (.elem nm attrs cs), specCnt M (.elem nm attrs cs)) := by
  have hb := congrArg Prod.fst ih
  have hm := congrArg Prod.snd ih
  simp only [htmlPassesF] at hb hm
  by_cases hst : nm = styleStr
  · subst hst
    have hsi : ¬ (styleStr = imgName) := by decide
    rcases htag : tagString cs with _ | s
    · have htag1 : tagString (pass1F M cs).1 = none := tagString_pass1F_none M cs htag
      simp [replace_urls_in_html, pass1, pass2, pass3, specNode, specCnt, hsi, htag, htag1, hb]
      omega
    · have hcs := tagString_eq_some htag
      subst hcs
      by_cases hs : s = []
      · subst hs
        simp [replace_urls_in_html, pass1, pass1F, pass2, pass2F, pass3, pass3F,
          specNode, specCnt, specForest, specCntF, tagString, hsi]
      · simp [replace_urls_in_html, pass1, pass1F, pass2, pass2F, pass3, pass3F,
          specNode, specCnt, specForest, specCntF, tagString, hsi, hs]
        omega
  · by_cases himg : nm = imgName
    · subst himg
      have hsi2 : ¬ (imgName = styleStr) := by decide
      simp [replace_urls_in_html, pass1, pass2, pass3, specNode, specCnt, hsi2, hb]
      omega
    · simp [replace_urls_in_html, pass1, pass2, pass3, specNode, specCnt, hst, himg, hb]
      omega

/-- The three sequential passes of `_replace_urls_in_html` coincide, on
every tree, with the single-traversal specification transform and count. -/
theorem html_passes_spec (M : UrlMapping) (t : HNode) :
    replace_urls_in_html t M = (specNode M t, specCnt M t) :=
  @HNode.rec (fun t => replace_urls_in_html t M = (specNode M t, specCnt M t))
    (fun f => htmlPassesF f M = (specForest M f, specCntF M f))
    (fun nm attrs cs ih => html_spec_elem M nm attrs cs ih)
    (fun _ => rfl)
    rfl
    (fun h t ih1 ih2 => htmlF_spec_cons M h t ih1 ih2)
    t

/-- C4: on every parsed document tree the HTML strategy equals the
specification transform: the `src` and `data-src` attributes of an image
element are rewritten exactly when they equal a mapping key (exact match
via dictionary lookup, no substring matching), each replaced attribute
adding exactly 1 to the count (style elements and inline style attributes
contribute their own per-pair counts).  In particular
`<img src="http://a/1.jpg">` with mapping
`{http://a/1.jpg -> http://b/1.jpg}` becomes `<img src="http://b/1.jpg">`
with count 1, while a `src` merely containing the key as a substring is
left unchanged with count 0. -/
theorem c4_html_strategy :
    (∀ (M : UrlMapping) (t : HNode),
      replace_urls_in_html t M = (specNode M t, specCnt M t)) ∧
    replace_urls_in_html
        (.elem imgName [(srcKey, "http://a/1.jpg".data)] .nil)
        [("http://a/1.jpg".data, "http://b/1.jpg".data)]
      = (.elem imgName [(srcKey, "http://b/1.jpg".data)] .nil, 1) ∧
    replace_urls_in_html
        (.elem imgName [(srcKey, "x.http://a/1.jpg.y".data)] .nil)
        [("http://a/1.jpg".data, "http://b/1.jpg".data)]
      = (.elem imgName [(srcKey, "x.http://a/1.jpg.y".data)] .nil, 0) :=
  ⟨fun M t => html_passes_spec M t, by decide, by decide⟩

theorem ne_backup (p : Str) : p ++ backupSuffix ≠ p := by
  intro h
  have h2 := congrArg List.length h
  have h7 : backupSuffix.length = 7 := by decide
  rw [List.length_append, h7] at h2
  omega

/-- C2: with `output_path=None` and `backup=True`, after a successful
`replace_urls_in_file`, `restore_from_backup` returns true and restores
the content of `p` identical to the pre-replacement original, and a
second `restore_from_backup` returns true again and leaves the content
unchanged (idempotence). -/
theorem c2_restore_round_trip (htmlT : Str → UrlMapping → Str × Nat) (fs : FS) (p : Str)
    (M : UrlMapping) (hM : M ≠ [])
    (hs : (replace_urls_in_file htmlT fs p M none true).2.success = true) :
    (restore_from_backup (replace_urls_in_file htmlT fs p M none true).1 p).2 = true ∧
    lookupFS (restore_from_backup (replace_urls_in_file htmlT fs p M none true).1 p).1 p
      = lookupFS fs p ∧
    (restore_from_backup
        (restore_from_backup (replace_urls_in_file htmlT fs p M none true).1 p).1 p).2 = true ∧
    lookupFS (restore_from_backup
        (restore_from_backup (replace_urls_in_file htmlT fs p M none true).1 p).1 p).1 p
      = lookupFS (restore_from_backup (replace_urls_in_file htmlT fs p M none true).1 p).1 p := by
  cases hcon : lookupFS fs p with
  | none => simp [replace_urls_in_file, hcon] at hs
  | some content =>
    have hnb := ne_backup p
    have hnb2 : p ≠ p ++ backupSuffix := Ne.symm hnb
    simp [replace_urls_in_file, restore_from_backup, hcon, hM, lookupFS, writeFS, hnb, hnb2, pyOr]

/-- Witness for `c2_restore_round_trip` on file `f.txt` with content
`"u x"` and mapping `{u -> v}`. -/
theorem c2_restore_round_trip_witness :
    (([("u".data, "v".data)] : UrlMapping) ≠ []) ∧
    (replace_urls_in_file htmlTId [("f.txt".data, "u x".data)] "f.txt".data
        [("u".data, "v".data)] none true).2.success = true ∧
    ((restore_from_backup (replace_urls_in_file htmlTId [("f.txt".data, "u x".data)]
        "f.txt".data [("u".data, "v".data)] none true).1 "f.txt".data).2 = true ∧
      lookupFS (restore_from_backup (replace_urls_in_file htmlTId
          [("f.txt".data, "u x".data)] "f.txt".data [("u".data, "v".data)] none true).1
          "f.txt".data).1 "f.txt".data
        = lookupFS [("f.txt".data, "u x".data)] "f.txt".data ∧
      (restore_from_backup (restore_from_backup (replace_urls_in_file htmlTId
          [("f.txt".data, "u x".data)] "f.txt".data [("u".data, "v".data)] none true).1
          "f.txt".data).1 "f.txt".data).2 = true ∧
      lookupFS (restore_from_backup (restore_from_backup (replace_urls_in_file htmlTId
          [("f.txt".data, "u x".data)] "f.txt".data [("u".data, "v".data)] none true).1
          "f.txt".data).1 "f.txt".data).1 "f.txt".data
        = lookupFS (restore_from_backup (replace_urls_in_file htmlTId
          [("f.txt".data, "u x".data)] "f.txt".data [("u".data, "v".data)] none true).1
          "f.txt".data).1 "f.txt".data) :=
  ⟨by decide, by decide,
    c2_restore_round_trip htmlTId [("f.txt".data, "u x".data)] "f.txt".data
      [("u".data, "v".data)] (by decide) (by decide)⟩

/-- C3: `replace_urls_in_file` is a total function of the model (no
exception escapes); when the path does not exist or the mapping is empty
it returns `success=false` with a non-null `error`. -/
theorem c3_error_containment (htmlT : Str → UrlMapping → Str × Nat) (fs : FS) (p : Str)
    (M : UrlMapping) (o : Option Str) (b : Bool)
    (h : lookupFS fs p = none ∨ M = []) :
    (replace_urls_in_file htmlT fs p M o b).2.success = false ∧
    (replace_urls_in_file htmlT fs p M o b).2.error ≠ none := by
  rcases h with h | h
  · simp [replace_urls_in_file, h]
  · subst h
    cases hcon : lookupFS fs p <;> simp [replace_urls_in_file, hcon]

/-- Witness for `c3_error_containment` on a missing file. -/
theorem c3_error_containment_witness :
    (lookupFS ([] : FS) "a.txt".data = none ∨ ([("u".data, "v".data)] : UrlMapping) = []) ∧
    ((replace_urls_in_file htmlTId [] "a.txt".data [("u".data, "v".data)]
        none true).2.success = false ∧
      (replace_urls_in_file htmlTId [] "a.txt".data [("u".data, "v".data)]
        none true).2.error ≠ none) :=
  ⟨Or.inl rfl,
    c3_error_containment htmlTId [] "a.txt".data [("u".data, "v".data)] none true (Or.inl rfl)⟩

theorem replace_urls_in_file_w_none (htmlT : Str → UrlMapping → Str × Nat) (fs : FS)
    (p : Str) (M : UrlMapping) (o : Option Str) (b : Bool) :
    replace_urls_in_file_w none htmlT fs p M o b = replace_urls_in_file htmlT fs p M o b := by
  cases hcon : lookupFS fs p <;> by_cases hM : M = [] <;>
    simp [replace_urls_in_file, replace_urls_in_file_w, hcon, hM]

/-- C8 (code bug): `open(output_file, 'w')` at line 94 truncates the
output file before anything is written, so when the write then raises
(for example ENOSPC at flush) the `except` of line 104 returns a result
with `success=false` while the output file has already been modified —
contrary to the claim and to the spec's own invariant.  Concretely: on
`f.txt` with content `"u x"` and mapping `{u -> v}` (backup=True,
output_path=None), a write failing after 0 characters reports failure
with the error set and the backup correctly holding the original, yet
`f.txt` itself — which is not the backup path — is left empty instead of
holding `"u x"`. -/
theorem c8_write_failure_modifies_output :
    (replace_urls_in_file_w (some 0) htmlTId [("f.txt".data, "u x".data)] "f.txt".data
        [("u".data, "v".data)] none true).2.success = false ∧
    (replace_urls_in_file_w (some 0) htmlTId [("f.txt".data, "u x".data)] "f.txt".data
        [("u".data, "v".data)] none true).2.error ≠ none ∧
    "f.txt".data ≠ "f.txt".data ++ backupSuffix ∧
    lookupFS (replace_urls_in_file_w (some 0) htmlTId [("f.txt".data, "u x".data)]
        "f.txt".data [("u".data, "v".data)] none true).1 ("f.txt".data ++ backupSuffix)
      = some "u x".data ∧
    lookupFS (replace_urls_in_file_w (some 0) htmlTId [("f.txt".data, "u x".data)]
        "f.txt".data [("u".data, "v".data)] none true).1 "f.txt".data
      ≠ lookupFS [("f.txt".data, "u x".data)] "f.txt".data ∧
    lookupFS (replace_urls_in_file_w (some 0) htmlTId [("f.txt".data, "u x".data)]
        "f.txt".data [("u".data, "v".data)] none true).1 "f.txt".data = some [] := by
  decide

/-- C9: the result has exactly the six fields of `RResult` (the final
conjunct is the structure eta law); `output_path` is the given output
path or else — Python falsiness, so also for an empty string — the file
path; and on failure `replacements` is 0 and `error` is non-null. -/
theorem c9_result_invariant (htmlT : Str → UrlMapping → Str × Nat) (fs : FS) (p : Str)
    (M : UrlMapping) (o : Option Str) (b : Bool) :
    (replace_urls_in_file htmlT fs p M o b).2.file_path = p ∧
    (replace_urls_in_file htmlT fs p M o b).2.output_path = pyOr o p ∧
    ((replace_urls_in_file htmlT fs p M o b).2.success = false →
      (replace_urls_in_file htmlT fs p M o b).2.replacements = 0 ∧
      (replace_urls_in_file htmlT fs p M o b).2.error ≠ none) ∧
    (replace_urls_in_file htmlT fs p M o b).2 =
      ⟨(replace_urls_in_file htmlT fs p M o b).2.file_path,
        (replace_urls_in_file htmlT fs p M o b).2.output_path,
        (replace_urls_in_file htmlT fs p M o b).2.success,
        (replace_urls_in_file htmlT fs p M o b).2.replacements,
        (replace_urls_in_file htmlT fs p M o b).2.backup_path,
        (replace_urls_in_file htmlT fs p M o b).2.error⟩ := by
  refine ⟨?_, ?_, ?_, rfl⟩ <;>
    cases hcon : lookupFS fs p <;> by_cases hM : M = [] <;>
      simp [replace_urls_in_file, hcon, hM]

/-- Witness for `c9_result_invariant` on a failing call. -/
theorem c9_result_invariant_witness :
    (replace_urls_in_file htmlTId [] "a.txt".data [("u".data, "v".data)]
        none true).2.output_path = pyOr none "a.txt".data ∧
    ((replace_urls_in_file htmlTId [] "a.txt".data [("u".data, "v".data)]
        none true).2.replacements = 0 ∧
      (replace_urls_in_file htmlTId [] "a.txt".data [("u".data, "v".data)]
        none true).2.error ≠ none) :=
  ⟨(c9_result_invariant htmlTId [] "a.txt".data [("u".data, "v".data)] none true).2.1,
    (c9_result_invariant htmlTId [] "a.txt".data [("u".data, "v".data)] none true).2.2.1
      (by decide)⟩

theorem replace_file_path (htmlT : Str → UrlMapping → Str × Nat) (fs : FS) (p : Str)
    (M : UrlMapping) (o : Option Str) (b : Bool) :
    (replace_urls_in_file htmlT fs p M o b).2.file_path = p := by
  cases hcon : lookupFS fs p <;> by_cases hM : M = [] <;> simp [replace_urls_in_file, hcon, hM]

theorem runFiles_map_file_path (htmlT : Str → UrlMapping → Str × Nat) (M : UrlMapping)
    (outDir : Option Str) (dirPath : Str) (backup : Bool) :
    ∀ (ps : List Str) (fs : FS),
      (runFiles htmlT M outDir dirPath backup ps fs).1.map RResult.file_path = ps := by
  intro ps
  induction ps with
  | nil => intro fs; rfl
  | cons p rest ih =>
    intro fs
    simp [runFiles, ih, replace_file_path]

/-- C7 (amended): the directory walk processes exactly the files with a
supported extension, in enumeration order, delegating each to
`replace_urls_in_file`; over `{a.txt, b.md, sub/c.html}` the recursive
walk returns 3 results in traversal order and the non-recursive walk
returns 2 results (`a.txt`, `b.md`); unsupported extensions are skipped;
per-file failures (here: an empty mapping) do not stop the loop. -/
theorem c7_directory_walk :
    (∀ (htmlT : Str → UrlMapping → Str × Nat) (fs : FS) (dirPath : Str)
        (entries : FEntries) (M : UrlMapping) (outDir : Option Str) (r b : Bool),
      (replace_urls_in_directory htmlT fs dirPath entries M outDir r b).1.map
          RResult.file_path
        = (if r then walkPaths dirPath entries else topFiles dirPath entries).filter
            isSupported) ∧
    (replace_urls_in_directory htmlTId exDirFS "d".data exEntries exM none true true).1.map
        RResult.file_path
      = ["d/a.txt".data, "d/b.md".data, "d/sub/c.html".data] ∧
    (replace_urls_in_directory htmlTId exDirFS "d".data exEntries exM none false true).1.map
        RResult.file_path
      = ["d/a.txt".data, "d/b.md".data] ∧
    (replace_urls_in_directory htmlTId exDirFS "d".data
        (.cons (.file "a.txt".data) (.cons (.file "im.png".data) .nil)) exM none true
        true).1.map
        RResult.file_path
      = ["d/a.txt".data] ∧
    ((replace_urls_in_directory htmlTId exDirFS "d".data exEntries [] none true true).1.length
        = 3 ∧
      ∀ res ∈ (replace_urls_in_directory htmlTId exDirFS "d".data exEntries [] none
        true true).1, res.success = false) := by
  refine ⟨?_, by decide, by decide, by decide, by decide⟩
  intro htmlT fs dirPath entries M outDir r b
  simpa [replace_urls_in_directory] using
    runFiles_map_file_path htmlT M outDir dirPath b
      ((if r then walkPaths dirPath entries else topFiles dirPath entries).filter isSupported) fs

/-- C7 counterexample: over `{a.txt, b.md, sub/c.html}` the non-recursive
walk returns 2 results (for the two top-level eligible files), not 1 as
claimed. -/
theorem c7_counterexample :
    (replace_urls_in_directory htmlTId exDirFS "d".data exEntries exM none false
        true).1.length = 2 ∧
    ¬ (replace_urls_in_directory htmlTId exDirFS "d".data exEntries exM none false
        true).1.length = 1 := by decide

/-- C10: the encoding fallback list ends with latin1, which decodes every
byte sequence, so the read step always yields some decoded content and
the `content is None` branch of lines 74-75 is unreachable, whatever the
utf-8, gbk and gb2312 codecs return. -/
theorem c10_encoding_fallback_total (dutf8 dgbk dgb2312 : List Nat → Option Str)
    (bs : List Nat) : readContent dutf8 dgbk dgb2312 bs ≠ none := by
  unfold readContent
  cases dutf8 bs with
  | some c => simp
  | none =>
    simp only [firstSome]
    cases dgbk bs with
    | some c => simp
    | none =>
      cases dgb2312 bs with
      | some c => simp [firstSome]
      | none => simp [firstSome]

end UrlReplacer
